import Mathlib

/-!
Verification of the core of the GORM object-relational mapper against its
natural-language specification.

The development is a shallow embedding: each Go function relevant to the
claims is translated into an executable Lean definition, working over plain
data (strings as rune sequences, machine integers as Int with explicit
wrapping at 2^64 where the Go code can overflow).  Identifier strings are
modelled as sequences of runes; for ASCII identifiers Go's byte indexing and
rune indexing coincide, and all concrete inputs used here are ASCII.
-/

set_option autoImplicit false
set_option maxRecDepth 100000

namespace Gorm

/-- Is the character an ASCII upper-case letter, the test the naming
strategy performs with comparisons against A and Z. -/
def isUpperAZ (c : Char) : Bool :=
  65 ≤ c.toNat && c.toNat ≤ 90

/-- Is the character an ASCII digit, the test the naming strategy performs
with comparisons against 0 and 9. -/
def isDigit09 (c : Char) : Bool :=
  48 ≤ c.toNat && c.toNat ≤ 57

/-- Go writes v + 32 to lower-case an upper-case ASCII letter. -/
def lowerAZ (c : Char) : Char :=
  Char.ofNat (c.toNat + 32)

/-- One lookup step of Go strings.Replacer: try the pattern pairs in
argument order and return the first whose pattern is a non-empty prefix of
the input, together with the pattern matched.  Go's Replacer picks, at each
position, the earliest argument-order match. -/
def tryPairs (pairs : List (List Char × List Char)) (s : List Char) :
    Option (List Char × List Char) :=
  match pairs with
  | [] => none
  | (pat, rep) :: ps =>
    if pat ≠ [] ∧ pat.isPrefixOf s then some (rep, pat) else tryPairs ps s

/-- Structural worker for Go strings.Replacer.Replace.  The fuel argument
only bounds the number of steps so the recursion is structural and reduces
in the kernel; every step consumes at least one character, so fuel equal to
the input length is always enough and the fuel case is never reached. -/
def replacerGo (pairs : List (List Char × List Char)) :
    Nat → List Char → List Char
  | _, [] => []
  | 0, s => s
  | fuel + 1, c :: rest =>
    match tryPairs pairs (c :: rest) with
    | some (rep, pat) =>
      rep ++ replacerGo pairs fuel (List.drop (max pat.length 1) (c :: rest))
    | none => c :: replacerGo pairs fuel rest

/-- Go strings.Replacer.Replace: scan left to right, replacing the earliest
argument-order match at each position, without overlapping matches.  All
patterns fed to it here are non-empty, so the max with 1 in the drop is the
pattern length. -/
def replacerReplace (pairs : List (List Char × List Char))
    (s : List Char) : List Char :=
  replacerGo pairs s.length s

/-- The common initialisms list of the naming strategy, paired with the
title-cased form strings.Title(strings.ToLower(x)) that the replacer
substitutes, in the argument order the source registers them. -/
def commonInitialismPairs : List (List Char × List Char) :=
  [((r"API").data, (r"Api").data), ((r"ASCII").data, (r"Ascii").data),
   ((r"CPU").data, (r"Cpu").data), ((r"CSS").data, (r"Css").data),
   ((r"DNS").data, (r"Dns").data), ((r"EOF").data, (r"Eof").data),
   ((r"GUID").data, (r"Guid").data), ((r"HTML").data, (r"Html").data),
   ((r"HTTP").data, (r"Http").data), ((r"HTTPS").data, (r"Https").data),
   ((r"ID").data, (r"Id").data), ((r"IP").data, (r"Ip").data),
   ((r"JSON").data, (r"Json").data), ((r"LHS").data, (r"Lhs").data),
   ((r"QPS").data, (r"Qps").data), ((r"RAM").data, (r"Ram").data),
   ((r"RHS").data, (r"Rhs").data), ((r"RPC").data, (r"Rpc").data),
   ((r"SLA").data, (r"Sla").data), ((r"SMTP").data, (r"Smtp").data),
   ((r"SSH").data, (r"Ssh").data), ((r"TLS").data, (r"Tls").data),
   ((r"TTL").data, (r"Ttl").data), ((r"UID").data, (r"Uid").data),
   ((r"UI").data, (r"Ui").data), ((r"UUID").data, (r"Uuid").data),
   ((r"URI").data, (r"Uri").data), ((r"URL").data, (r"Url").data),
   ((r"UTF8").data, (r"Utf8").data), ((r"VM").data, (r"Vm").data),
   ((r"XML").data, (r"Xml").data), ((r"XSRF").data, (r"Xsrf").data),
   ((r"XSS").data, (r"Xss").data)]

/-- The case-walk splitter of NamingStrategy.toDBName: the main loop over
value with state (lastCase, curCase, nextCase, nextNumber), inserting an
underscore at case boundaries and lower-casing upper letters on emission.
The fold runs over the indices of all characters but the last, exactly as
the Go loop over value with the final character handled afterwards. -/
def snakeWalk (value : List Char) (v0 : Char) : List Char :=
  let step := fun (st : Bool × Bool × List Char) (i : Nat) =>
    let lastCase := st.1
    let curCase := st.2.1
    let buf := st.2.2
    let v := value.getD i ' '
    let nextCase := isUpperAZ (value.getD (i + 1) ' ')
    let nextNumber := isDigit09 (value.getD (i + 1) ' ')
    let buf :=
      if curCase then
        if lastCase && (nextCase || nextNumber) then
          buf ++ [lowerAZ v]
        else
          let buf :=
            if 0 < i && value.getD (i - 1) ' ' ≠ '_' &&
                value.getD (i + 1) ' ' ≠ '_' then
              buf ++ ['_']
            else buf
          buf ++ [lowerAZ v]
      else buf ++ [v]
    (curCase, nextCase, buf)
  let init : Bool × Bool × List Char := (false, isUpperAZ v0, [])
  let res := (List.range (value.length - 1)).foldl step init
  let lastCase := res.1
  let curCase := res.2.1
  let buf := res.2.2
  let last := value.getD (value.length - 1) ' '
  if curCase then
    (if !lastCase && 1 < value.length then buf ++ ['_'] else buf) ++
      [lowerAZ last]
  else buf ++ [last]

/-- NamingStrategy.toDBName for the default strategy (no NameReplacer,
NoLowerCase false): empty names map to the empty name, otherwise the common
initialisms are substituted and the case-walk splitter runs. -/
def toDBName (name : List Char) : List Char :=
  if name = [] then []
  else
    match replacerReplace commonInitialismPairs name with
    | [] => []
    | v0 :: rest => snakeWalk (v0 :: rest) v0

example : replacerReplace commonInitialismPairs (r"HTTPServerID").data
    = (r"HttpServerId").data := by decide
example : toDBName (r"HTTPServerID").data = (r"http_server_id").data := by
  decide
example : toDBName (r"ID").data = (r"id").data := by decide
example : toDBName (r"UserURL").data = (r"user_url").data := by decide
example : toDBName (r"UUID").data = (r"uuid").data := by decide
example : toDBName (r"A").data = (r"a").data := by decide

/-! SHA-1, as used by NamingStrategy.formatName through crypto/sha1, and
the 64-rune truncation of generated constraint, check, index and
foreign-key names. -/

/-- Rotate a 32-bit word left by n bits. -/
def rotl32 (n x : Nat) : Nat :=
  (x * 2 ^ n + x / 2 ^ (32 - n)) % 2 ^ 32

/-- The SHA-1 round function for round t. -/
def sha1F (t b c d : Nat) : Nat :=
  if t < 20 then Nat.lor (Nat.land b c) (Nat.land (4294967295 - b) d)
  else if t < 40 then Nat.xor b (Nat.xor c d)
  else if t < 60 then
    Nat.lor (Nat.lor (Nat.land b c) (Nat.land b d)) (Nat.land c d)
  else Nat.xor b (Nat.xor c d)

/-- The SHA-1 round constant for round t. -/
def sha1K (t : Nat) : Nat :=
  if t < 20 then 0x5A827999
  else if t < 40 then 0x6ED9EBA1
  else if t < 60 then 0x8F1BBCDC
  else 0xCA62C1D6

/-- Packs groups of four bytes into big-endian 32-bit words. -/
def bytesToWords : List Nat → List Nat
  | a :: b :: c :: d :: rest =>
    (a * 2 ^ 24 + b * 2 ^ 16 + c * 2 ^ 8 + d) :: bytesToWords rest
  | _ => []

/-- Expands the 16 schedule words of a chunk to 80 by appending, k times,
the rotation of the xor of the words 3, 8, 14 and 16 positions back. -/
def expandW : Nat → List Nat → List Nat
  | 0, w => w
  | k + 1, w =>
    let n := w.length
    expandW k (w ++ [rotl32 1 (Nat.xor (Nat.xor (w.getD (n - 3) 0)
      (w.getD (n - 8) 0)) (Nat.xor (w.getD (n - 14) 0) (w.getD (n - 16) 0)))])

/-- The five working registers of SHA-1. -/
abbrev H5 := Nat × Nat × Nat × Nat × Nat

/-- Runs the 80 SHA-1 rounds over the enumerated schedule words. -/
def sha1Rounds (ws : List (Nat × Nat)) (st : H5) : H5 :=
  ws.foldl (fun st tw =>
    let a := st.1
    let b := st.2.1
    let c := st.2.2.1
    let d := st.2.2.2.1
    let e := st.2.2.2.2
    let temp :=
      (rotl32 5 a + sha1F tw.1 b c d + e + tw.2 + sha1K tw.1) % 2 ^ 32
    (temp, a, rotl32 30 b, c, d)) st

/-- Processes one 64-byte chunk, adding the round output into the running
hash registers modulo 2^32. -/
def sha1Chunk (st : H5) (chunk : List Nat) : H5 :=
  let w := expandW 64 (bytesToWords chunk)
  let r := sha1Rounds w.enum st
  ((st.1 + r.1) % 2 ^ 32, (st.2.1 + r.2.1) % 2 ^ 32,
   (st.2.2.1 + r.2.2.1) % 2 ^ 32, (st.2.2.2.1 + r.2.2.2.1) % 2 ^ 32,
   (st.2.2.2.2 + r.2.2.2.2) % 2 ^ 32)

/-- Splits a byte list into 64-byte chunks.  The fuel only bounds the number
of steps so the recursion is structural; fuel equal to the length is enough
since every step consumes at least one byte. -/
def chunks64 : Nat → List Nat → List (List Nat)
  | _, [] => []
  | 0, _ => []
  | fuel + 1, l => l.take 64 :: chunks64 fuel (l.drop 64)

/-- The eight big-endian bytes of a 64-bit length. -/
def be8 (n : Nat) : List Nat :=
  [n / 2 ^ 56 % 256, n / 2 ^ 48 % 256, n / 2 ^ 40 % 256, n / 2 ^ 32 % 256,
   n / 2 ^ 24 % 256, n / 2 ^ 16 % 256, n / 2 ^ 8 % 256, n % 256]

/-- SHA-1 padding: a 0x80 byte, zeros up to 56 modulo 64, then the bit
length as eight big-endian bytes. -/
def sha1Pad (msg : List Nat) : List Nat :=
  msg ++ [128] ++ List.replicate ((119 - msg.length % 64) % 64) 0 ++
    be8 (8 * msg.length % 2 ^ 64)

/-- The four big-endian bytes of a 32-bit word. -/
def word4 (w : Nat) : List Nat :=
  [w / 2 ^ 24 % 256, w / 2 ^ 16 % 256, w / 2 ^ 8 % 256, w % 256]

/-- Serialises the five hash registers as the 20-byte digest. -/
def sha1Digest (st : H5) : List Nat :=
  word4 st.1 ++ word4 st.2.1 ++ word4 st.2.2.1 ++ word4 st.2.2.2.1 ++
    word4 st.2.2.2.2

/-- SHA-1 of a byte list. -/
def sha1Bytes (msg : List Nat) : List Nat :=
  let padded := sha1Pad msg
  sha1Digest ((chunks64 padded.length padded).foldl sha1Chunk
    (0x67452301, 0xEFCDAB89, 0x98BADCFE, 0x10325476, 0xC3D2E1F0))

/-- Lower-case hexadecimal digit for a value below 16, as produced by
hex.EncodeToString. -/
def hexDigit (n : Nat) : Char :=
  if n < 10 then Char.ofNat (48 + n) else Char.ofNat (87 + n)

/-- hex.EncodeToString over a byte list, two lower-case digits per byte. -/
def hexEncode : List Nat → List Char
  | [] => []
  | b :: bs => hexDigit (b / 16 % 16) :: hexDigit (b % 16) :: hexEncode bs

/-- SHA-1 of an identifier, rendered as 40 lower-case hex characters.
Characters are serialised as single bytes, exact for ASCII identifiers. -/
def sha1Hex (s : List Char) : List Char :=
  hexEncode (sha1Bytes (s.map (fun c => c.toNat % 256)))

/-- The underscore-joined and dot-replaced raw name built first by
NamingStrategy.formatName. -/
def rawFormatName (pfx table name : List Char) : List Char :=
  (pfx ++ '_' :: table ++ '_' :: name).map (fun c => if c = '.' then '_' else c)

/-- NamingStrategy.formatName: the raw joined name, truncated to its first
56 runes plus the first 8 hex characters of its SHA-1 when it is longer
than 64 runes. -/
def formatName (pfx table name : List Char) : List Char :=
  let f := rawFormatName pfx table name
  if 64 < f.length then f.take 56 ++ (sha1Hex f).take 8 else f

/-- Is the character a lower-case hexadecimal digit. -/
def isHexLowerChar (c : Char) : Bool :=
  ((r"0123456789abcdef").data).contains c

example : sha1Hex (r"abc").data
    = (r"a9993e364706816aba3e25717850c26c9cd0d89d").data := by decide

theorem sha1Digest_length (st : H5) : (sha1Digest st).length = 20 := by
  simp [sha1Digest, word4]

theorem hexEncode_length (bs : List Nat) :
    (hexEncode bs).length = 2 * bs.length := by
  induction bs with
  | nil => rfl
  | cons b bs ih => simp [hexEncode, ih]; omega

theorem sha1Hex_length (s : List Char) : (sha1Hex s).length = 40 := by
  simp [sha1Hex, hexEncode_length, sha1Bytes, sha1Digest_length]

theorem hexDigit_mod16_lower (n : Nat) :
    isHexLowerChar (hexDigit (n % 16)) = true := by
  have h : ∀ m : Fin 16, isHexLowerChar (hexDigit m.val) = true := by decide
  exact h ⟨n % 16, Nat.mod_lt n (by omega)⟩

theorem hexEncode_all_lower (bs : List Nat) :
    ∀ c ∈ hexEncode bs, isHexLowerChar c = true := by
  induction bs with
  | nil => intro c hc; cases hc
  | cons b bs ih =>
    intro c hc
    simp only [hexEncode, List.mem_cons] at hc
    rcases hc with h | h | h
    · exact h ▸ hexDigit_mod16_lower _
    · exact h ▸ hexDigit_mod16_lower _
    · exact ih c h

theorem sha1Hex_all_lower (s : List Char) :
    ∀ c ∈ sha1Hex s, isHexLowerChar c = true :=
  hexEncode_all_lower _

/-- C5: the default naming strategy's snake-case converter (no replacer,
lower-casing enabled) maps HTTPServerID to http_server_id, ID to id and
UserURL to user_url: common initialisms are first normalised to a single
capitalised word, then the case-walk splitter inserts underscores. -/
theorem C5_toDBName_snake_cases :
    toDBName (r"HTTPServerID").data = (r"http_server_id").data ∧
    toDBName (r"ID").data = (r"id").data ∧
    toDBName (r"UserURL").data = (r"user_url").data := by
  decide

/-- C9: every name produced by NamingStrategy.formatName has rune length at
most 64, and whenever the raw underscore-joined form exceeds 64 runes the
result is its first 56 runes followed by the first 8 lower-case hex
characters of its SHA-1. -/
theorem C9_formatName_truncation (pfx table name : List Char) :
    (formatName pfx table name).length ≤ 64 ∧
    (64 < (rawFormatName pfx table name).length →
      formatName pfx table name =
        (rawFormatName pfx table name).take 56 ++
          (sha1Hex (rawFormatName pfx table name)).take 8 ∧
      ∀ c ∈ (sha1Hex (rawFormatName pfx table name)).take 8,
        isHexLowerChar c = true) := by
  constructor
  · by_cases h : 64 < (rawFormatName pfx table name).length
    · simp only [formatName, if_pos h, List.length_append, List.length_take,
        sha1Hex_length]
      omega
    · simp only [formatName, if_neg h]
      omega
  · intro h
    constructor
    · simp [formatName, h]
    · intro c hc
      exact sha1Hex_all_lower _ c ((List.take_sublist 8 _).subset hc)

theorem C9_formatName_truncation_witness :
    64 < (rawFormatName (r"chk").data (List.replicate 60 'a')
      (r"col").data).length ∧
    (formatName (r"chk").data (List.replicate 60 'a') (r"col").data =
      (rawFormatName (r"chk").data (List.replicate 60 'a')
        (r"col").data).take 56 ++
        (sha1Hex (rawFormatName (r"chk").data (List.replicate 60 'a')
          (r"col").data)).take 8 ∧
      ∀ c ∈ (sha1Hex (rawFormatName (r"chk").data (List.replicate 60 'a')
        (r"col").data)).take 8, isHexLowerChar c = true) :=
  ⟨by decide,
    (C9_formatName_truncation (r"chk").data (List.replicate 60 'a')
      (r"col").data).2 (by decide)⟩

/-! Error chaining through DB.AddError, the empty-result guard of Scan, and
the missing-where guard of the delete callback. -/

/-- Errors carried by the database handle.  A chain node models the error
produced by formatting the old error with the verb v and wrapping the new
error with the verb w, as DB.AddError does; unwrapping such an error yields
the wrapped (new) one. -/
inductive GoError where
  | missingWhereClause
  | recordNotFound
  | named (msg : List Char)
  | chain (older newer : GoError)
deriving DecidableEq

/-- The rendered message of an error; a chain renders the older error, a
semicolon separator, then the newer error, in that order. -/
def GoError.render : GoError → List Char
  | .missingWhereClause => (r"WHERE conditions required").data
  | .recordNotFound => (r"record not found").data
  | .named m => m
  | .chain a b => a.render ++ (r"; ").data ++ b.render

/-- errors.Unwrap: only the error formed with the wrapping verb exposes an
inner error, namely the newer one. -/
def GoError.unwrap : GoError → Option GoError
  | .chain _ b => some b
  | _ => none

/-- DB.AddError with error translation disabled: a nil error changes
nothing; recording onto a clean handle stores the error; recording onto a
handle that already carries one chains the old error before the new one. -/
def addError (dbErr e : Option GoError) : Option GoError :=
  match e with
  | none => dbErr
  | some err =>
    match dbErr with
    | none => some err
    | some old => some (.chain old err)

/-- C8 counterexample: chaining a second error onto a handle wraps the
newer error, not the earliest one, so unwrapping the combined error
recovers the second error rather than the first. -/
theorem C8_addError_counterexample :
    addError (some (GoError.named (r"first").data))
        (some (GoError.named (r"second").data)) =
      some (GoError.chain (GoError.named (r"first").data)
        (GoError.named (r"second").data)) ∧
    (GoError.chain (GoError.named (r"first").data)
        (GoError.named (r"second").data)).unwrap =
      some (GoError.named (r"second").data) ∧
    GoError.named (r"second").data ≠ GoError.named (r"first").data := by
  decide

/-- C8 amended: recording a further error onto a handle that already
carries one concatenates the two into one error whose text lists them in
order, earliest first, and the error that remains wrapped (recoverable by
unwrapping) is the most recent one. -/
theorem C8_addError_chains_latest_wrapped (old e : GoError) :
    ∃ c, addError (some old) (some e) = some c ∧
      c.render = old.render ++ (r"; ").data ++ e.render ∧
      c.unwrap = some e :=
  ⟨.chain old e, rfl, rfl, rfl⟩

/-- The destination shapes Scan distinguishes. -/
inductive ScanDest where
  | mapDest
  | mapSliceDest
  | scalarDest
  | recordDest
  | recordSliceDest
deriving DecidableEq

/-- Whether the destination is a scalar or a single record, the shapes the
specification singles out for the record-not-found guard. -/
def destIsScalarOrRecord : ScanDest → Bool
  | .scalarDest => true
  | .recordDest => true
  | _ => false

/-- Rows affected after the scan loop: single-row destinations consume at
most one row, the other shapes consume every row. -/
def scanRowsAffected : ScanDest → Nat → Nat
  | .mapDest, n => min 1 n
  | .recordDest, n => min 1 n
  | _, n => n

/-- The handle error after the rows.Err() check of Scan: a non-nil rows
error distinct from the current handle error is recorded.  Errors recorded
while scanning individual rows are part of errBefore. -/
def scanErrAfterRows (errBefore rowsErr : Option GoError) : Option GoError :=
  if rowsErr ≠ none ∧ rowsErr ≠ errBefore then addError errBefore rowsErr
  else errBefore

/-- Outcome of the tail of Scan: the final handle error and whether the
record-not-found branch ran. -/
structure ScanOutcome where
  error : Option GoError
  notFoundRaised : Bool
deriving DecidableEq

/-- The tail of Scan: after the rows error check, record-not-found is
recorded exactly when no row was scanned, the statement opted in through
raise-error-on-not-found, and the handle carries no error. -/
def scanFinish (dest : ScanDest) (numRows : Nat) (optIn : Bool)
    (errBefore rowsErr : Option GoError) : ScanOutcome :=
  if scanRowsAffected dest numRows = 0 ∧ optIn = true ∧
      scanErrAfterRows errBefore rowsErr = none then
    ⟨addError (scanErrAfterRows errBefore rowsErr) (some .recordNotFound),
      true⟩
  else ⟨scanErrAfterRows errBefore rowsErr, false⟩

/-- C7 counterexample: with a slice destination, zero rows, the
raise-error-on-not-found flag and no prior error, Scan still records
record-not-found, though the destination is neither scalar nor record. -/
theorem C7_scan_not_found_counterexample :
    (scanFinish .recordSliceDest 0 true none none).notFoundRaised = true ∧
    (scanFinish .recordSliceDest 0 true none none).error =
      some GoError.recordNotFound ∧
    destIsScalarOrRecord .recordSliceDest = false := by
  decide

/-- C7 amended: Scan records record-not-found exactly when zero rows were
scanned, the statement opted in, and no error is recorded after the rows
error check; the destination shape plays no role.  When raised, the final
handle error is exactly record-not-found. -/
theorem C7_scan_not_found_guard (dest : ScanDest) (numRows : Nat)
    (optIn : Bool) (errBefore rowsErr : Option GoError) :
    ((scanFinish dest numRows optIn errBefore rowsErr).notFoundRaised = true ↔
      scanRowsAffected dest numRows = 0 ∧ optIn = true ∧
        scanErrAfterRows errBefore rowsErr = none) ∧
    ((scanFinish dest numRows optIn errBefore rowsErr).notFoundRaised = true →
      (scanFinish dest numRows optIn errBefore rowsErr).error =
        some GoError.recordNotFound) := by
  constructor
  · unfold scanFinish
    split
    · next h => simpa using h
    · next h => simpa using h
  · intro hr
    unfold scanFinish at hr
    split at hr
    · next h =>
      rcases h with ⟨h1, h2, he⟩
      simp [scanFinish, h1, h2, he, addError]
    · simp at hr

theorem C7_scan_not_found_guard_witness :
    (scanFinish .recordDest 0 true none none).notFoundRaised = true ∧
    (scanFinish .recordDest 0 true none none).error =
      some GoError.recordNotFound := by
  have h := C7_scan_not_found_guard .recordDest 0 true none none
  have hr := h.1.mpr (by decide)
  exact ⟨hr, h.2 hr⟩

/-- The part of a statement the delete callback reads.  Clauses are tracked
by name, which is what the missing-where guard consults; pk-value counts
stand for the lengths of the identity-value lists gathered from the
destination and, when distinct and non-nil, from the model. -/
structure DeleteStmt where
  hasError : Bool
  schemaPresent : Bool
  schemaDeleteClauses : List String
  unscoped : Bool
  sqlEmpty : Bool
  clauses : List String
  destPKValueCount : Nat
  modelDistinctFromDest : Bool
  modelPKValueCount : Nat
  dryRun : Bool

/-- Statement.AddClause and AddClauseIfNotExists at the level of clause
names: the name becomes present in the clause map. -/
def addClauseName (cs : List String) (n : String) : List String :=
  if cs.contains n then cs else cs ++ [n]

/-- The clause names after the delete callback merged the schema's
delete clauses, which it does only when a schema is present and the
statement is not unscoped. -/
def deleteClausesAfterSchema (st : DeleteStmt) : List String :=
  if st.schemaPresent ∧ ¬ st.unscoped then
    st.schemaDeleteClauses.foldl addClauseName st.clauses
  else st.clauses

/-- The clause names after the DELETE clause is installed and a WHERE
clause with primary-key IN conditions gathered from the destination is
added when some identity values were found there. -/
def deleteClausesPKDest (st : DeleteStmt) : List String :=
  if st.schemaPresent ∧ 0 < st.destPKValueCount then
    addClauseName (addClauseName (deleteClausesAfterSchema st) (r"DELETE"))
      (r"WHERE")
  else addClauseName (deleteClausesAfterSchema st) (r"DELETE")

/-- The clause names just before the missing-where guard: on top of the
destination conditions, identity values gathered from a model distinct
from the destination also add a WHERE clause. -/
def deleteClausesPreGuard (st : DeleteStmt) : List String :=
  if st.schemaPresent ∧ st.modelDistinctFromDest ∧
      0 < st.modelPKValueCount then
    addClauseName (deleteClausesPKDest st) (r"WHERE")
  else deleteClausesPKDest st

/-- Result of running the delete callback: the final clause-name set, the
error the guard recorded, and whether ExecContext was reached. -/
structure DeleteOutcome where
  clauses : List String
  errorAdded : Option GoError
  execCalled : Bool
deriving DecidableEq

/-- The delete callback: nothing runs on a handle that already carries an
error; with no pre-built SQL the clause set is assembled and the guard
requires a WHERE clause in it, recording missing-where-clause and returning
before the exec call otherwise; ExecContext runs unless dry-run. -/
def deleteCallback (st : DeleteStmt) : DeleteOutcome :=
  if st.hasError then ⟨st.clauses, none, false⟩
  else if st.sqlEmpty then
    if (r"WHERE") ∈ deleteClausesPreGuard st then
      ⟨addClauseName (deleteClausesPreGuard st) (r"FROM"), none, !st.dryRun⟩
    else ⟨deleteClausesPreGuard st, some .missingWhereClause, false⟩
  else ⟨deleteClausesAfterSchema st, none, !st.dryRun⟩

theorem mem_addClauseName {cs : List String} {m : String} (n : String)
    (h : m ∈ cs) : m ∈ addClauseName cs n := by
  unfold addClauseName
  split
  · exact h
  · exact List.mem_append_left _ h

/-- An unscoped delete statement with no WHERE clause, no gathered
primary-key values and no pre-built SQL. -/
def deleteUnscopedNoWhere : DeleteStmt :=
  ⟨false, true, [], true, true, [], 0, false, 0, false⟩

/-- C1 counterexample: the unscoped flag does not satisfy the delete-stage
guard.  On an unscoped statement with no WHERE clause the callback still
records missing-where-clause and performs no exec call. -/
theorem C1_delete_guard_counterexample :
    deleteUnscopedNoWhere.unscoped = true ∧
    (deleteCallback deleteUnscopedNoWhere).errorAdded =
      some GoError.missingWhereClause ∧
    (deleteCallback deleteUnscopedNoWhere).execCalled = false := by
  decide

/-- C1 amended: for delete statements with no prior error and no pre-built
raw SQL, the callback records the missing-where-clause error exactly when
the final clause set, including primary-key conditions gathered from the
destination or model, has no WHERE clause; the unscoped flag does not lift
the guard, and when the error is recorded no exec call is performed. -/
theorem C1_delete_missing_where_guard (st : DeleteStmt)
    (hErr : st.hasError = false) (hSql : st.sqlEmpty = true) :
    ((deleteCallback st).errorAdded = some GoError.missingWhereClause ↔
      (r"WHERE") ∉ (deleteCallback st).clauses) ∧
    ((deleteCallback st).errorAdded = some GoError.missingWhereClause →
      (deleteCallback st).execCalled = false) := by
  by_cases h : (r"WHERE") ∈ deleteClausesPreGuard st
  · constructor
    · simp [deleteCallback, hErr, hSql, h, mem_addClauseName _ h]
    · simp [deleteCallback, hErr, hSql, h]
  · constructor
    · simp [deleteCallback, hErr, hSql, h]
    · simp [deleteCallback, hErr, hSql, h]

theorem C1_delete_missing_where_guard_witness :
    (deleteCallback deleteUnscopedNoWhere).execCalled = false :=
  (C1_delete_missing_where_guard deleteUnscopedNoWhere (by decide)
    (by decide)).2 (by decide)

/-! Distribution of the last-insert-id over a slice destination by the
create callback. -/

/-- Signed 64-bit wrap-around, the behaviour of Go int64 arithmetic on the
running insert id. -/
def wrap64 (z : Int) : Int :=
  (z + 2 ^ 63) % 2 ^ 64 - 2 ^ 63

/-- The forward distribution loop of the create callback: each element
whose primary key is zero receives the running insert id, which then
advances by the auto-increment increment with int64 wrap-around; elements
with a non-zero key are skipped without consuming an id. -/
def distributeForward (inc : Int) : Int → List Int → List Int
  | _, [] => []
  | cur, pk :: rest =>
    if pk = 0 then cur :: distributeForward inc (wrap64 (cur + inc)) rest
    else pk :: distributeForward inc cur rest

/-- The reversed distribution loop: elements are visited from the last to
the first, each zero-keyed element receives the running insert id and the
id then decreases by the increment with int64 wrap-around.  Returns the
updated element list and the remaining id. -/
def distributeReversed (inc cur : Int) : List Int → List Int × Int
  | [] => ([], cur)
  | pk :: rest =>
    match distributeReversed inc cur rest with
    | (rest2, cur2) =>
      if pk = 0 then (cur2 :: rest2, wrap64 (cur2 - inc))
      else (pk :: rest2, cur2)

/-- The gate and dispatch of the create callback after ExecContext: ids are
distributed only when some row was affected, the prioritized primary field
has a database default, and the reported insert id is positive; the dialect
flag selects the reversed loop. -/
def createAssignIDs (reversed : Bool) (inc cur rowsAffected : Int)
    (pkHasDefault : Bool) (pks : List Int) : List Int :=
  if rowsAffected ≠ 0 ∧ pkHasDefault = true ∧ 0 < cur then
    if reversed then (distributeReversed inc cur pks).1
    else distributeForward inc cur pks
  else pks

theorem wrap64_eq_self {z : Int} (h1 : -(2 ^ 63) ≤ z) (h2 : z < 2 ^ 63) :
    wrap64 z = z := by
  unfold wrap64
  omega

theorem distributeForward_cons_zero (inc cur : Int) (rest : List Int) :
    distributeForward inc cur (0 :: rest) =
      cur :: distributeForward inc (wrap64 (cur + inc)) rest := by
  simp [distributeForward]

theorem distributeReversed_cons_zero (inc cur : Int) (rest : List Int) :
    distributeReversed inc cur (0 :: rest) =
      ((distributeReversed inc cur rest).2 ::
          (distributeReversed inc cur rest).1,
        wrap64 ((distributeReversed inc cur rest).2 - inc)) := by
  rcases h : distributeReversed inc cur rest with ⟨a, b⟩
  simp [distributeReversed, h]

theorem distributeForward_replicate (s : Int) (hs : 0 ≤ s) :
    ∀ (n : Nat) (L : Int), 0 < L → L + n * s < 2 ^ 63 →
      distributeForward s L (List.replicate n 0) =
        (List.range n).map (fun (i : Nat) => L + (i : Int) * s) := by
  intro n
  induction n with
  | zero => intro L _ _; rfl
  | succ n ih =>
    intro L hL hbound
    have hns : 0 ≤ (n : Int) * s := mul_nonneg (Int.natCast_nonneg n) hs
    have hbound2 : L + ((n : Int) * s + s) < 2 ^ 63 := by
      have hcast : ((n + 1 : Nat) : Int) * s = (n : Int) * s + s := by
        push_cast; ring
      rw [← hcast]
      exact_mod_cast hbound
    rw [List.replicate_succ, distributeForward_cons_zero]
    rw [wrap64_eq_self (by omega) (by omega)]
    rw [ih (L + s) (by omega) (by push_cast; omega)]
    rw [List.range_succ_eq_map, List.map_cons, List.map_map]
    have hfun : ((fun (i : Nat) => L + (i : Int) * s) ∘ Nat.succ)
        = fun (i : Nat) => L + s + (i : Int) * s := by
      funext i
      simp only [Function.comp_apply]
      push_cast
      ring
    rw [hfun]
    norm_num

theorem distributeReversed_replicate (s : Int) (hs : 0 ≤ s) :
    ∀ (n : Nat) (L : Int), 0 < L → L < 2 ^ 63 → (n : Int) * s < 2 ^ 63 →
      distributeReversed s L (List.replicate n 0) =
        (((List.range n).map (fun (i : Nat) => L - (i : Int) * s)).reverse,
          L - (n : Int) * s) := by
  intro n
  induction n with
  | zero => intro L _ _ _; simp [distributeReversed]
  | succ n ih =>
    intro L hL hU hbound
    have hns : 0 ≤ (n : Int) * s := mul_nonneg (Int.natCast_nonneg n) hs
    have hb2 : (n : Int) * s + s < 2 ^ 63 := by
      have hcast : ((n + 1 : Nat) : Int) * s = (n : Int) * s + s := by
        push_cast; ring
      rw [← hcast]
      exact_mod_cast hbound
    rw [List.replicate_succ, distributeReversed_cons_zero]
    rw [ih L hL hU (by omega)]
    dsimp only
    rw [wrap64_eq_self (by omega) (by omega)]
    rw [List.range_succ, List.map_append, List.reverse_append]
    simp only [List.map_cons, List.map_nil, List.reverse_cons,
      List.reverse_nil, List.nil_append, List.cons_append, Prod.mk.injEq]
    refine ⟨trivial, ?_⟩
    push_cast
    ring

/-- C2: when execution affects rows and reports a positive last-insert-id
L, a create of n records whose auto-increment primary key is zero in every
element assigns keys L, L+s, ..., L+(n-1)s in index order with the
reversed dialect flag off, and with the flag on assigns L to the last
element, decrementing by s toward the first (s the configured increment).
The bounds keep the int64 id arithmetic from wrapping. -/
theorem C2_create_last_insert_id_distribution (n : Nat) (L s ra : Int)
    (hra : ra ≠ 0) (hL : 0 < L) (hs : 0 ≤ s)
    (hbound : L + n * s < 2 ^ 63) :
    createAssignIDs false s L ra true (List.replicate n 0) =
      (List.range n).map (fun (i : Nat) => L + (i : Int) * s) ∧
    createAssignIDs true s L ra true (List.replicate n 0) =
      ((List.range n).map (fun (i : Nat) => L - (i : Int) * s)).reverse := by
  have hns : 0 ≤ (n : Int) * s := mul_nonneg (Int.natCast_nonneg n) hs
  constructor
  · simp only [createAssignIDs]
    rw [if_pos ⟨hra, trivial, hL⟩, if_neg (by decide)]
    exact distributeForward_replicate s hs n L hL hbound
  · simp only [createAssignIDs]
    rw [if_pos ⟨hra, trivial, hL⟩, if_pos trivial]
    rw [distributeReversed_replicate s hs n L hL (by omega) (by omega)]

theorem C2_create_last_insert_id_distribution_witness :
    (createAssignIDs false 1 10 3 true (List.replicate 3 0) =
      (List.range 3).map (fun (i : Nat) => 10 + (i : Int) * 1) ∧
     createAssignIDs true 1 10 3 true (List.replicate 3 0) =
      ((List.range 3).map (fun (i : Nat) => 10 - (i : Int) * 1)).reverse) ∧
    (List.range 3).map (fun (i : Nat) => 10 + (i : Int) * 1) =
      [10, 11, 12] ∧
    ((List.range 3).map (fun (i : Nat) => 10 - (i : Int) * 1)).reverse =
      [8, 9, 10] :=
  ⟨C2_create_last_insert_id_distribution 3 10 1 3 (by decide) (by decide)
    (by decide) (by decide), by decide, by decide⟩

/-! Election of the prioritized primary field at the end of schema
parsing. -/

/-- The per-field inputs the election depends on: the record field name,
an optional explicit column annotation, the primary-key and auto-increment
annotations, and whether a data type was derived (fields without one get no
database name). -/
structure ParseField where
  name : List Char
  columnTag : Option (List Char)
  primaryKeyTag : Bool
  autoIncrementTag : Bool
  hasDataType : Bool

/-- The database column name of a field: the column annotation when given,
otherwise the naming strategy applied to the field name when the field has
a data type, otherwise empty. -/
def fieldDBName (f : ParseField) : List Char :=
  match f.columnTag with
  | some c => c
  | none => if f.hasDataType then toDBName f.name else []

/-- The index maps and primary-field list schema parsing accumulates.
Association lists where the first matching key wins model the Go maps:
later entries are consed in front exactly when the source overwrites. -/
structure ParseState where
  dbIndex : List (List Char × Nat)
  nameIndex : List (List Char × Nat)
  primaries : List Nat

/-- Whether an association list has a key. -/
def assocHas (m : List (List Char × Nat)) (k : List Char) : Bool :=
  (m.lookup k).isSome

/-- The field-registration loop of schema parsing, for top-level fields
(all bind paths have length one, so the shorter-path replacement case never
fires): the first field with a database name claims the FieldsByDBName
entry, overwrites the FieldsByName entry, and is appended to PrimaryFields
when annotated primary; afterwards every field claims its FieldsByName
entry when still absent. -/
def parseFieldsGo (fs : List ParseField) : ParseState :=
  fs.enum.foldl (fun st p =>
    let i := p.1
    let f := p.2
    let st2 :=
      if fieldDBName f ≠ [] ∧ ¬ assocHas st.dbIndex (fieldDBName f) then
        ParseState.mk ((fieldDBName f, i) :: st.dbIndex)
          ((f.name, i) :: st.nameIndex)
          (if f.primaryKeyTag then st.primaries ++ [i] else st.primaries)
      else st
    if ¬ assocHas st2.nameIndex f.name then
      ParseState.mk st2.dbIndex ((f.name, i) :: st2.nameIndex) st2.primaries
    else st2) (ParseState.mk [] [] [])

/-- Schema.LookUpField: the column-name index first, the field-name index
second. -/
def lookUpFieldIdx (st : ParseState) (s : List Char) : Option Nat :=
  match st.dbIndex.lookup s with
  | some i => some i
  | none => st.nameIndex.lookup s

/-- The id candidate of the election: LookUpField with the lower-case name
first, the upper-case name second. -/
def idCandidate (fs : List ParseField) : Option Nat :=
  match lookUpFieldIdx (parseFieldsGo fs) (r"id").data with
  | some i => some i
  | none => lookUpFieldIdx (parseFieldsGo fs) (r"ID").data

/-- The field at an index, with an inert default out of range. -/
def fieldAt (fs : List ParseField) (i : Nat) : ParseField :=
  fs.getD i (ParseField.mk [] none false false false)

/-- The fallback block of the election, reached with no prioritized field
yet: a single primary field is elected; among several, the first
auto-increment one; none otherwise. -/
def electFromPrimaries (fs : List ParseField) (ps : List Nat) : Option Nat :=
  match ps with
  | [] => none
  | [p] => some p
  | _ :: _ :: _ => ps.find? (fun i => (fieldAt fs i).autoIncrementTag)

/-- The election of the prioritized primary field: an id/ID candidate is
elected when itself primary, or when no primary field was collected;
otherwise the fallback block runs over the collected primary fields. -/
def electPrioritizedPrimary (fs : List ParseField) : Option Nat :=
  match idCandidate fs with
  | some i =>
    if (fieldAt fs i).primaryKeyTag then some i
    else if (parseFieldsGo fs).primaries = [] then some i
    else electFromPrimaries fs (parseFieldsGo fs).primaries
  | none => electFromPrimaries fs (parseFieldsGo fs).primaries

/-- Record type with a plain ID field and a UUID field annotated as primary
key. -/
def exFieldsIDUUID : List ParseField :=
  [ParseField.mk (r"ID").data none false false true,
   ParseField.mk (r"UUID").data none true false true]

/-- Record type with two primary fields A and B, B also annotated as
auto-increment. -/
def exFieldsAB : List ParseField :=
  [ParseField.mk (r"A").data none true false true,
   ParseField.mk (r"B").data none true true true]

/-- C4: for a record with a plain ID field and a UUID primary key the
prioritized primary is UUID; with two primary fields A and B where B is
auto-increment it is B.  In general the explicit id/ID field is elected
when it is itself primary or when no other primary field was found, and
among multiple primary fields the first auto-increment one is preferred. -/
theorem C4_prioritized_primary_election :
    electPrioritizedPrimary exFieldsIDUUID = some 1 ∧
    electPrioritizedPrimary exFieldsAB = some 1 ∧
    (∀ fs i, idCandidate fs = some i →
      (fieldAt fs i).primaryKeyTag = true →
      electPrioritizedPrimary fs = some i) ∧
    (∀ fs i, idCandidate fs = some i →
      (parseFieldsGo fs).primaries = [] →
      electPrioritizedPrimary fs = some i) ∧
    (∀ fs, idCandidate fs = none →
      2 ≤ (parseFieldsGo fs).primaries.length →
      electPrioritizedPrimary fs =
        (parseFieldsGo fs).primaries.find?
          (fun i => (fieldAt fs i).autoIncrementTag)) := by
  refine ⟨by decide, by decide, ?_, ?_, ?_⟩
  · intro fs i h1 h2
    simp [electPrioritizedPrimary, h1, h2]
  · intro fs i h1 h2
    by_cases hp : (fieldAt fs i).primaryKeyTag
    · simp [electPrioritizedPrimary, h1, hp]
    · simp [electPrioritizedPrimary, h1, hp, h2]
  · intro fs h1 h2
    rcases hps : (parseFieldsGo fs).primaries with _ | ⟨a, _ | ⟨b, rest⟩⟩
    · rw [hps] at h2
      simp at h2
    · rw [hps] at h2
      simp at h2
    · simp [electPrioritizedPrimary, h1, hps, electFromPrimaries]

theorem C4_prioritized_primary_election_witness :
    electPrioritizedPrimary [ParseField.mk (r"ID").data none true false true]
        = some 0 ∧
    electPrioritizedPrimary exFieldsAB = some 1 :=
  ⟨C4_prioritized_primary_election.2.2.1
      [ParseField.mk (r"ID").data none true false true] 0
      (by decide) (by decide),
   C4_prioritized_primary_election.2.1⟩

/-! The clause writer: Statement.AddVar with a dollar-numbered bind-var
dialect, the raw expression Expr.Build, and the IN expression.  Values are
modelled by scalars, one level of slices, and named arguments; none of the
modelled values implements driver.Valuer, so that type check of the source
always fails here. -/

/-- A scalar Go value passed as a statement variable. -/
inductive GoScalar where
  | sint (n : Int)
  | sstr (s : String)
  | snull
deriving DecidableEq

/-- A Go value handed to the clause builder: a scalar, a slice of scalars
whose flag records whether its Go type is the interface slice, or a named
argument carrying a value. -/
inductive GoValue where
  | scalar (v : GoScalar)
  | slice (iface : Bool) (xs : List GoScalar)
  | namedArg (inner : GoValue)
deriving DecidableEq

/-- The live SQL buffer and positional variables of a statement. -/
structure BuildState where
  sql : List Char
  vars : List GoValue
deriving DecidableEq

/-- Append raw SQL text. -/
def writeStr (st : BuildState) (s : List Char) : BuildState :=
  BuildState.mk (st.sql ++ s) st.vars

/-- Append one SQL character. -/
def writeCh (st : BuildState) (c : Char) : BuildState :=
  BuildState.mk (st.sql ++ [c]) st.vars

/-- The decimal digits of a number. -/
def natChars (n : Nat) : List Char :=
  Nat.toDigits 10 n

/-- Push a scalar onto the variables and write the dialect's bind
placeholder, a dollar sign followed by the new variable count. -/
def bindScalar (st : BuildState) (v : GoScalar) : BuildState :=
  BuildState.mk (st.sql ++ '$' :: natChars (st.vars.length + 1))
    (st.vars ++ [GoValue.scalar v])

/-- Comma-join scalars, each through the scalar bind path, as the element
loop of the slice case of Statement.AddVar does. -/
def bindScalarList (first : Bool) (st : BuildState) :
    List GoScalar → BuildState
  | [] => st
  | v :: rest =>
    bindScalarList false (bindScalar (if first then st else writeCh st ',') v)
      rest

/-- Statement.AddVar on one value: a named argument pushes its value and
writes nothing; a scalar binds; an empty slice writes the literal text
NULL in parentheses and binds nothing; a non-empty slice writes its
comma-joined element binds in parentheses. -/
def addVarOne (st : BuildState) : GoValue → BuildState
  | .namedArg inner => BuildState.mk st.sql (st.vars ++ [inner])
  | .scalar v => bindScalar st v
  | .slice _ [] => writeStr st (r"(NULL)").data
  | .slice _ (x :: xs) =>
    writeCh (bindScalarList true (writeCh st '(') (x :: xs)) ')'

/-- Statement.AddVar on a value list: values are processed in order with a
comma before every value but the first. -/
def addVarGo (first : Bool) (st : BuildState) : List GoValue → BuildState
  | [] => st
  | v :: rest =>
    addVarGo false (addVarOne (if first then st else writeCh st ',') v) rest

/-- The character scan of the raw expression Expr.Build: a question mark
with variables remaining consumes the next one; after an opening
parenthesis (or with the without-parentheses flag) a slice expands to its
comma-joined element binds, an empty slice to a single NULL bind; any
other character is copied and updates the after-parenthesis flag;
variables left over at the end are pushed as named-argument binds. -/
def exprBuildGo (woParens : Bool) (vars : List GoValue) :
    List Char → Nat → Bool → BuildState → BuildState
  | [], idx, _, st => BuildState.mk st.sql (st.vars ++ vars.drop idx)
  | c :: rest, idx, afterParen, st =>
    if c = '?' ∧ idx < vars.length then
      exprBuildGo woParens vars rest (idx + 1) afterParen
        (if afterParen ∨ woParens then
          match vars.getD idx (GoValue.scalar .snull) with
          | .slice _ [] => addVarOne st (GoValue.scalar .snull)
          | .slice _ (x :: xs) => bindScalarList true st (x :: xs)
          | v => addVarOne st v
        else addVarOne st (vars.getD idx (GoValue.scalar .snull)))
    else
      exprBuildGo woParens vars rest idx (c = '(')
        (BuildState.mk (st.sql ++ [c]) st.vars)

/-- Expr.Build: scan the SQL against the variables from a given state. -/
def exprBuild (woParens : Bool) (sql : List Char) (vars : List GoValue)
    (st : BuildState) : BuildState :=
  exprBuildGo woParens vars sql 0 false st

/-- An empty statement buffer. -/
def emptyBuild : BuildState :=
  BuildState.mk [] []

/-- C3 counterexample: the raw condition with the SQL id IN ? and a single
empty-slice variable renders the literal text id IN (NULL) with an empty
variables vector, not a NULL bind placeholder. -/
theorem C3_empty_slice_counterexample :
    exprBuild false (r"id IN ?").data [GoValue.slice false []] emptyBuild =
      BuildState.mk (r"id IN (NULL)").data [] ∧
    BuildState.mk (r"id IN (NULL)").data [] ≠
      BuildState.mk (r"id IN ($1)").data [GoValue.scalar .snull] := by
  decide

/-- C3 amended: with the question mark not preceded by an opening
parenthesis, the empty slice renders as the literal SQL text NULL in
parentheses with no bind variable; the single NULL bind placeholder arises
exactly in the parenthesised form of the same condition. -/
theorem C3_empty_slice_literal_null :
    exprBuild false (r"id IN ?").data [GoValue.slice false []] emptyBuild =
      BuildState.mk (r"id IN (NULL)").data [] ∧
    exprBuild false (r"id IN (?)").data [GoValue.slice false []] emptyBuild =
      BuildState.mk (r"id IN ($1)").data [GoValue.scalar .snull] := by
  decide

/-- A column name quoted by the dialect with double quotes. -/
def quotedCol (col : String) : List Char :=
  '"' :: (col.data ++ ['"'])

/-- Builder.WriteQuoted on a plain column name. -/
def writeQuoted (st : BuildState) (col : String) : BuildState :=
  writeStr st (quotedCol col)

/-- The type check of the source against the interface slice: only a slice
value whose Go type is the interface slice passes. -/
def isInterfaceSlice : GoValue → Bool
  | .slice iface _ => iface
  | _ => false

/-- IN.Build: no values renders the literal NULL set; one value that is
not an interface slice degenerates to an equality on its bind; otherwise
the quoted column, the IN keyword and the comma-joined value binds in
parentheses. -/
def inBuild (col : String) (vals : List GoValue) (st : BuildState) :
    BuildState :=
  match vals with
  | [] => writeStr (writeQuoted st col) (r" IN (NULL)").data
  | [v] =>
    if isInterfaceSlice v then
      writeCh (addVarGo true (writeStr (writeQuoted st col)
        (r" IN (").data) [v]) ')'
    else addVarOne (writeStr (writeQuoted st col) (r" = ").data) v
  | v1 :: v2 :: rest =>
    writeCh (addVarGo true (writeStr (writeQuoted st col)
      (r" IN (").data) (v1 :: v2 :: rest)) ')'

/-- IN.NegationBuild: no values renders IS NOT NULL; one value that is not
an interface slice renders an inequality on its bind; otherwise NOT IN
over the comma-joined value binds. -/
def inNegationBuild (col : String) (vals : List GoValue) (st : BuildState) :
    BuildState :=
  match vals with
  | [] => writeStr (writeQuoted st col) (r" IS NOT NULL").data
  | [v] =>
    if isInterfaceSlice v then
      writeCh (addVarGo true (writeStr (writeQuoted st col)
        (r" NOT IN (").data) [v]) ')'
    else addVarOne (writeStr (writeQuoted st col) (r" <> ").data) v
  | v1 :: v2 :: rest =>
    writeCh (addVarGo true (writeStr (writeQuoted st col)
      (r" NOT IN (").data) (v1 :: v2 :: rest)) ')'

/-- The comma-preceded dollar placeholders numbered start, start+1, and so
on, for the elements after the first. -/
def phFrom (start : Nat) : Nat → List Char
  | 0 => []
  | k + 1 => ',' :: '$' :: (natChars start ++ phFrom (start + 1) k)

/-- The comma-joined dollar placeholders numbered from start. -/
def placeholders (start : Nat) : Nat → List Char
  | 0 => []
  | k + 1 => '$' :: (natChars start ++ phFrom (start + 1) k)

theorem bindScalarList_false (vs : List GoScalar) :
    ∀ st : BuildState, bindScalarList false st vs =
      BuildState.mk (st.sql ++ phFrom (st.vars.length + 1) vs.length)
        (st.vars ++ vs.map GoValue.scalar) := by
  induction vs with
  | nil => intro st; simp [bindScalarList, phFrom]
  | cons v rest ih =>
    intro st
    rw [bindScalarList, ih]
    simp [bindScalar, writeCh, phFrom, List.append_assoc]

theorem bindScalarList_true (v : GoScalar) (vs : List GoScalar)
    (st : BuildState) :
    bindScalarList true st (v :: vs) =
      BuildState.mk
        (st.sql ++ placeholders (st.vars.length + 1) (v :: vs).length)
        (st.vars ++ (v :: vs).map GoValue.scalar) := by
  rw [bindScalarList, bindScalarList_false]
  simp [bindScalar, placeholders, phFrom, List.append_assoc]

theorem addVarGo_scalars_eq (vs : List GoScalar) :
    ∀ (first : Bool) (st : BuildState),
      addVarGo first st (vs.map GoValue.scalar) = bindScalarList first st vs := by
  induction vs with
  | nil => intro first st; rfl
  | cons v rest ih =>
    intro first st
    simp [addVarGo, bindScalarList, addVarOne, ih]

theorem addVarGo_scalar_cons (v1 v2 : GoScalar) (rest : List GoScalar)
    (st : BuildState) :
    addVarGo true st (GoValue.scalar v1 :: GoValue.scalar v2 ::
        rest.map GoValue.scalar) =
      bindScalarList true st (v1 :: v2 :: rest) := by
  have h := addVarGo_scalars_eq (v1 :: v2 :: rest) true st
  simpa using h

/-- C10: the IN expression over a column emits, with zero values, the
literal NULL set and IS NOT NULL under negation; with one scalar value it
degenerates to an equality or inequality on a single bind; with two or
more values, or a single interface-slice value, it emits IN and NOT IN
over the bound placeholders. -/
theorem C10_in_expression (col : String) :
    (inBuild col [] emptyBuild =
        BuildState.mk (quotedCol col ++ (r" IN (NULL)").data) [] ∧
      inNegationBuild col [] emptyBuild =
        BuildState.mk (quotedCol col ++ (r" IS NOT NULL").data) []) ∧
    (∀ v : GoScalar,
      inBuild col [GoValue.scalar v] emptyBuild =
        BuildState.mk (quotedCol col ++ (r" = $1").data)
          [GoValue.scalar v] ∧
      inNegationBuild col [GoValue.scalar v] emptyBuild =
        BuildState.mk (quotedCol col ++ (r" <> $1").data)
          [GoValue.scalar v]) ∧
    (∀ vs : List GoScalar, 2 ≤ vs.length →
      inBuild col (vs.map GoValue.scalar) emptyBuild =
        BuildState.mk (quotedCol col ++ (r" IN (").data ++
            placeholders 1 vs.length ++ [')'])
          (vs.map GoValue.scalar) ∧
      inNegationBuild col (vs.map GoValue.scalar) emptyBuild =
        BuildState.mk (quotedCol col ++ (r" NOT IN (").data ++
            placeholders 1 vs.length ++ [')'])
          (vs.map GoValue.scalar)) ∧
    (∀ (v : GoScalar) (vs : List GoScalar),
      inBuild col [GoValue.slice true (v :: vs)] emptyBuild =
        BuildState.mk (quotedCol col ++ (r" IN (").data ++
            '(' :: (placeholders 1 (v :: vs).length ++ (r"))").data))
          ((v :: vs).map GoValue.scalar) ∧
      inNegationBuild col [GoValue.slice true (v :: vs)] emptyBuild =
        BuildState.mk (quotedCol col ++ (r" NOT IN (").data ++
            '(' :: (placeholders 1 (v :: vs).length ++ (r"))").data))
          ((v :: vs).map GoValue.scalar)) := by
  have hone : natChars 1 = ['1'] := rfl
  refine ⟨⟨rfl, rfl⟩, ?_, ?_, ?_⟩
  · intro v
    constructor <;>
      simp [inBuild, inNegationBuild, isInterfaceSlice, addVarOne,
        bindScalar, writeStr, writeQuoted, writeCh, emptyBuild, hone,
        List.append_assoc]
  · intro vs h2
    rcases vs with _ | ⟨v1, _ | ⟨v2, rest⟩⟩
    · simp at h2
    · simp at h2
    · constructor <;>
        · simp only [List.map_cons, inBuild, inNegationBuild]
          rw [addVarGo_scalar_cons, bindScalarList_true]
          simp [writeStr, writeQuoted, writeCh, emptyBuild,
            List.append_assoc]
  · intro v vs
    constructor <;>
      · simp only [inBuild, inNegationBuild]
        rw [if_pos (show isInterfaceSlice (GoValue.slice true (v :: vs))
          = true from rfl)]
        simp only [addVarGo, addVarOne]
        rw [bindScalarList_true]
        simp [writeStr, writeQuoted, writeCh, emptyBuild,
          List.append_assoc]

theorem C10_in_expression_witness :
    ((inBuild (r"x") [] emptyBuild =
        BuildState.mk (quotedCol (r"x") ++ (r" IN (NULL)").data) [] ∧
      inNegationBuild (r"x") [] emptyBuild =
        BuildState.mk (quotedCol (r"x") ++ (r" IS NOT NULL").data) []) ∧
     (inBuild (r"x") [GoValue.scalar (.sint 5)] emptyBuild =
        BuildState.mk (quotedCol (r"x") ++ (r" = $1").data)
          [GoValue.scalar (.sint 5)] ∧
      inNegationBuild (r"x") [GoValue.scalar (.sint 5)] emptyBuild =
        BuildState.mk (quotedCol (r"x") ++ (r" <> $1").data)
          [GoValue.scalar (.sint 5)]) ∧
     (inBuild (r"x") [GoValue.scalar (.sint 1), GoValue.scalar (.sint 2)]
          emptyBuild =
        BuildState.mk (quotedCol (r"x") ++ (r" IN (").data ++
            placeholders 1 2 ++ [')'])
          [GoValue.scalar (.sint 1), GoValue.scalar (.sint 2)])) ∧
    placeholders 1 2 = (r"$1,$2").data :=
  have h := C10_in_expression (r"x")
  ⟨⟨h.1, h.2.1 (.sint 5),
    (h.2.2.1 [.sint 1, .sint 2] (by decide)).1⟩, by decide⟩

/-! Binding of duplicated result-set column names to schema fields in the
row scanner. -/

/-- A schema field as the scanner sees it: the record-level name, the
database column name, and the readable permission.  Top-level fields are
assumed, so the column index keeps the first field per database name. -/
structure SchField where
  fname : String
  dbName : String
  readable : Bool
deriving DecidableEq

/-- First pair of an indexed field list whose field satisfies the
predicate; models a first-insertion-wins Go map over the parse order. -/
def firstPairWith (p : SchField → Bool) :
    List (Nat × SchField) → Option (Nat × SchField)
  | [] => none
  | q :: rest => if p q.2 then some q else firstPairWith p rest

/-- Schema.LookUpField over the indexed field list: the column-name index
first, the record-field-name index second. -/
def lookUpPair (l : List (Nat × SchField)) (c : String) :
    Option (Nat × SchField) :=
  match firstPairWith (fun f => f.dbName == c) l with
  | some q => some q
  | none => firstPairWith (fun f => f.fname == c) l

/-- The indices of the readable fields carrying a database name, in schema
field order. -/
def readablesL (c : String) (l : List (Nat × SchField)) : List Nat :=
  (l.filter (fun q => q.2.dbName == c && q.2.readable)).map (fun q => q.1)

/-- The duplicate-field loop of Scan: walk the schema fields, count down
over the readable fields with the column's database name, and return the
index where the countdown hits zero. -/
def pickL (c : String) : List (Nat × SchField) → Nat → Option Nat
  | [], _ => none
  | q :: rest, count =>
    if q.2.dbName == c && q.2.readable then
      if count = 0 then some q.1 else pickL c rest (count - 1)
    else pickL c rest count

/-- The column-resolution loop of Scan restricted to plain columns: a miss
or an unreadable lookup result leaves a sink; the first occurrence of a
name binds the column-index entry and stores count one; a later occurrence
runs the duplicate-field loop with the stored count, binding its result
and bumping the count, or falling back to the column-index entry without
bumping when the loop finds nothing. -/
def scanColumnsGo (l : List (Nat × SchField)) :
    List String → (String → Option Nat) → List (Option Nat)
  | [], _ => []
  | c :: cs, cnt =>
    match lookUpPair l c with
    | none => none :: scanColumnsGo l cs cnt
    | some q =>
      if q.2.readable then
        match cnt c with
        | none =>
          some q.1 ::
            scanColumnsGo l cs (fun x => if x = c then some 1 else cnt x)
        | some k =>
          match pickL c l k with
          | some j =>
            some j ::
              scanColumnsGo l cs
                (fun x => if x = c then some (k + 1) else cnt x)
          | none => some q.1 :: scanColumnsGo l cs cnt
      else none :: scanColumnsGo l cs cnt

/-- Scan's binding of result columns to schema field indices, starting
from an empty duplicate-count map. -/
def scanDuplicateColumns (fs : List SchField) (cols : List String) :
    List (Option Nat) :=
  scanColumnsGo fs.enum cols (fun _ => none)

/-- Modelled from the spec: the k-th occurrence of a duplicated column
name binds to the k-th readable field with that database name in schema
field order. -/
def specBindingGo (l : List (Nat × SchField)) :
    List String → (String → Nat) → List (Option Nat)
  | [], _ => []
  | c :: cs, o =>
    (readablesL c l).get? (o c) ::
      specBindingGo l cs (fun x => if x = c then o x + 1 else o x)

/-- The spec-worded binding over a whole column list. -/
def claimedDuplicateBinding (fs : List SchField) (cols : List String) :
    List (Option Nat) :=
  specBindingGo fs.enum cols (fun _ => 0)

/-- Whether the column-index entry for a name, the first field carrying it
as database name, is readable. -/
def firstFieldReadable (fs : List SchField) (c : String) : Bool :=
  match firstPairWith (fun f => f.dbName == c) fs.enum with
  | some q => q.2.readable
  | none => false

theorem pickL_eq_get (c : String) :
    ∀ (l : List (Nat × SchField)) (k : Nat),
      pickL c l k = (readablesL c l).get? k := by
  intro l
  induction l with
  | nil => intro k; simp [pickL, readablesL]
  | cons q rest ih =>
    intro k
    by_cases h : (q.2.dbName == c && q.2.readable) = true
    · cases k with
      | zero => simp [pickL, readablesL, h]
      | succ k => simp [pickL, readablesL, h, ih]
    · simp [pickL, readablesL, h, ih]

theorem readablesL_head {c : String} :
    ∀ {l : List (Nat × SchField)} {q : Nat × SchField},
      firstPairWith (fun f => f.dbName == c) l = some q →
      q.2.readable = true →
      (readablesL c l).get? 0 = some q.1 := by
  intro l
  induction l with
  | nil => intro q h _; cases h
  | cons p rest ih =>
    intro q h hr
    by_cases hp : (p.2.dbName == c) = true
    · rw [firstPairWith, if_pos hp] at h
      cases h
      simp [readablesL, hp, hr]
    · rw [firstPairWith, if_neg hp] at h
      have hcond : (p.2.dbName == c && p.2.readable) = false := by
        simp [hp]
      simp only [readablesL, List.filter_cons, hcond]
      exact ih h hr

theorem scanColumnsGo_eq_spec (l : List (Nat × SchField)) :
    ∀ (cols : List String) (cnt : String → Option Nat) (o : String → Nat),
      (∀ c ∈ cols, cnt c = if o c = 0 then none else some (o c)) →
      (∀ c ∈ cols, ∃ q, firstPairWith (fun f => f.dbName == c) l = some q ∧
        q.2.readable = true) →
      (∀ c ∈ cols, o c + cols.count c ≤ (readablesL c l).length) →
      scanColumnsGo l cols cnt = specBindingGo l cols o := by
  intro cols
  induction cols with
  | nil => intro cnt o _ _ _; rfl
  | cons c cs ih =>
    intro cnt o h1 h2 h3
    obtain ⟨q, hq, hqr⟩ := h2 c (List.mem_cons_self c cs)
    have hlook : lookUpPair l c = some q := by
      simp [lookUpPair, hq]
    have hcnt := h1 c (List.mem_cons_self c cs)
    have hcl : (c :: cs).count c = cs.count c + 1 := List.count_cons_self c cs
    have hbound := h3 c (List.mem_cons_self c cs)
    have h1t : ∀ x ∈ cs,
        (fun x => if x = c then some (o c + 1) else cnt x) x =
          if (fun x => if x = c then o x + 1 else o x) x = 0 then none
          else some ((fun x => if x = c then o x + 1 else o x) x) := by
      intro x hx
      by_cases hxc : x = c
      · subst hxc
        simp
      · simp only [if_neg hxc]
        exact h1 x (List.mem_cons_of_mem c hx)
    have h2t : ∀ x ∈ cs, ∃ p,
        firstPairWith (fun f => f.dbName == x) l = some p ∧
          p.2.readable = true :=
      fun x hx => h2 x (List.mem_cons_of_mem c hx)
    have h3t : ∀ x ∈ cs,
        (fun x => if x = c then o x + 1 else o x) x + cs.count x ≤
          (readablesL x l).length := by
      intro x hx
      by_cases hxc : x = c
      · subst hxc
        have := h3 x (List.mem_cons_self x cs)
        rw [List.count_cons_self] at this
        simpa using by omega
      · simp only [if_neg hxc]
        have := h3 x (List.mem_cons_of_mem c hx)
        rw [List.count_cons_of_ne hxc] at this
        exact this
    rcases ho : o c with _ | k
    · have hcnone : cnt c = none := by rw [hcnt, ho]; simp
      have hhead : (readablesL c l).get? 0 = some q.1 := readablesL_head hq hqr
      simp only [scanColumnsGo, hlook, hqr, if_true, hcnone, specBindingGo,
        ho, hhead]
      refine congrArg ((some q.1) :: ·) ?_
      have hcnt1 : (fun x => if x = c then some 1 else cnt x) =
          fun x => if x = c then some (o c + 1) else cnt x := by
        funext x
        rw [ho]
      rw [hcnt1]
      exact ih _ _ h1t h2t h3t
    · have hcsome : cnt c = some (k + 1) := by rw [hcnt, ho]; simp
      have hlen : k + 1 < (readablesL c l).length := by
        rw [ho, hcl] at hbound
        omega
      rcases hget : (readablesL c l).get? (k + 1) with _ | j
      · rw [List.get?_eq_none] at hget
        omega
      · have hpick : pickL c l (k + 1) = some j := by
          rw [pickL_eq_get, hget]
        simp only [scanColumnsGo, hlook, hqr, if_true, hcsome, hpick,
          specBindingGo, ho, hget]
        refine congrArg ((some j) :: ·) ?_
        have hcnt1 : (fun x => if x = c then some (k + 1 + 1) else cnt x) =
            fun x => if x = c then some (o c + 1) else cnt x := by
          funext x
          rw [ho]
        rw [hcnt1]
        exact ih _ _ h1t h2t h3t

/-- A schema whose first field carrying the duplicated column name is not
readable, followed by two readable fields with that name. -/
def dupSinkFields : List SchField :=
  [SchField.mk (r"F0") (r"name") false,
   SchField.mk (r"F1") (r"name") true,
   SchField.mk (r"F2") (r"name") true]

/-- C6 counterexample: with two result columns named name and two readable
fields carrying that database name, the scanner binds nothing when the
column-index entry (the first field with that name) is unreadable, while
the claimed k-th-readable binding names the two readable fields. -/
theorem C6_duplicate_column_counterexample :
    (readablesL (r"name") dupSinkFields.enum).length = 2 ∧
    ([r"name", r"name"] : List String).count (r"name") = 2 ∧
    scanDuplicateColumns dupSinkFields [r"name", r"name"] = [none, none] ∧
    claimedDuplicateBinding dupSinkFields [r"name", r"name"] =
      [some 1, some 2] ∧
    ([none, none] : List (Option Nat)) ≠ [some 1, some 2] := by
  decide

/-- C6 amended: whenever every result column's column-index entry (the
first schema field with that DBName) is readable and no column name occurs
more often than the schema has readable fields with that DBName, the
scanner binds the k-th occurrence of each column name to the k-th readable
field with that DBName in schema field order. -/
theorem C6_duplicate_column_binding (fs : List SchField)
    (cols : List String)
    (hfirst : cols.all (fun c => firstFieldReadable fs c) = true)
    (hcount : cols.all (fun c =>
      decide (cols.count c ≤ (readablesL c fs.enum).length)) = true) :
    scanDuplicateColumns fs cols = claimedDuplicateBinding fs cols := by
  apply scanColumnsGo_eq_spec
  · intro c _
    simp
  · intro c hc
    have h := (List.all_eq_true.mp hfirst) c hc
    unfold firstFieldReadable at h
    rcases hq : firstPairWith (fun f => f.dbName == c) fs.enum with _ | q
    · rw [hq] at h
      simp at h
    · rw [hq] at h
      exact ⟨q, rfl, by simpa using h⟩
  · intro c hc
    have h := (List.all_eq_true.mp hcount) c hc
    have h2 := of_decide_eq_true h
    simpa using h2

theorem C6_duplicate_column_binding_witness :
    scanDuplicateColumns
        [SchField.mk (r"Name1") (r"name") true,
         SchField.mk (r"Name2") (r"name") true] [r"name", r"name"] =
      claimedDuplicateBinding
        [SchField.mk (r"Name1") (r"name") true,
         SchField.mk (r"Name2") (r"name") true] [r"name", r"name"] ∧
    scanDuplicateColumns
        [SchField.mk (r"Name1") (r"name") true,
         SchField.mk (r"Name2") (r"name") true] [r"name", r"name"] =
      [some 0, some 1] :=
  ⟨C6_duplicate_column_binding
      [SchField.mk (r"Name1") (r"name") true,
       SchField.mk (r"Name2") (r"name") true] [r"name", r"name"]
      (by decide) (by decide), by decide⟩

end Gorm
